import Mathlib

/-!
Verification of `torchio/transforms/augmentation/intensity/random_bias_field.py`
(class `RandomBiasField`, static methods `get_params` and `generate_bias_field`).

Modelling conventions (shallow embedding):

* Numpy float arrays are modelled as rational-valued arrays.  A value of
  `none : Option ℚ` marks a non-finite float (`inf`, `-inf` or `nan`); in this
  code non-finite values arise only from the division by zero that the mesh
  normalization performs when a mesh maximum is `0`.  Rounding and overflow of
  IEEE floats are abstracted away (finite values are exact rationals) and the
  final `astype(np.float32)` cast is the identity on the model.
* A raised Python exception (the `IndexError` from `coefficients[i]` when the
  coefficient vector is too short, or the `ValueError` from `.max()` on an
  empty array when a spatial dimension is `0`) is modelled by an outer
  `Option`: `none` means the call raised and returned nothing.
* `generate_bias_field` reads its `data` argument only through
  `data.shape[1:]`; the model therefore takes that spatial shape (a triple of
  naturals) directly.
* Random sampling in `get_params` is modelled by an abstract draw stream
  `draw : ℕ → ℚ` (the value returned by the i-th `uniform_` call) and one
  value `r : ℚ` for `torch.rand(1)`, with the caller guaranteeing `0 ≤ r < 1`.
-/

set_option maxRecDepth 4000

namespace TorchioBias

/-- A numpy float value: `some q` is the finite value `q`, `none` is
non-finite (`inf`, `-inf` or `nan`). -/
abbrev WVal := Option ℚ

/-- Elementwise float addition: a non-finite operand yields a non-finite
result (`x + ±inf = ±inf`, `x + nan = nan`). -/
def wAdd : WVal → WVal → WVal
  | some a, some b => some (a + b)
  | _, _ => none

/-- Elementwise float multiplication: a non-finite operand yields a
non-finite result (`0 * inf = nan`, `x * inf = ±inf`, `x * nan = nan`). -/
def wMul : WVal → WVal → WVal
  | some a, some b => some (a * b)
  | _, _ => none

/-- `x ** n` for a natural exponent.  Numpy evaluates `nan ** 0 = 1.0` and
`(±inf) ** 0 = 1.0`, so the zero power is finite `1` even at a non-finite
base. -/
def wPow (x : WVal) : ℕ → WVal
  | 0 => some 1
  | n + 1 => wMul x (wPow x n)

/-- Float division of a finite value by a finite scalar: division by zero
produces a non-finite value (`±inf` for a nonzero numerator, `nan` for
`0/0`). -/
def qDivW (v m : ℚ) : WVal := if m = 0 then none else some (v / m)

/-- A 3-d numpy array: a shape and an entry function (entries outside the
shape are irrelevant junk). -/
structure Array3 (α : Type) where
  shape : ℕ × ℕ × ℕ
  entry : ℕ → ℕ → ℕ → α

/-- The entries of an array in row-major order (as `ndarray.max()` sees
them). -/
def flatten (A : Array3 ℚ) : List ℚ :=
  (List.range A.shape.1).flatMap fun i =>
    (List.range A.shape.2.1).flatMap fun j =>
      (List.range A.shape.2.2).map fun k => A.entry i j k

/-- Maximum of a list of floats; `none` on the empty list (where numpy
`.max()` raises `ValueError`). -/
def listMax : List ℚ → Option ℚ
  | [] => none
  | x :: xs => some (xs.foldl max x)

/-- `A.max()`. -/
def npMax (A : Array3 ℚ) : Option ℚ := listMax (flatten A)

/-- `np.arange(a, b)` with unit step: `ceil(b - a)` values `a, a+1, ...`. -/
def npArange (a b : ℚ) : List ℚ :=
  (List.range (⌈b - a⌉).toNat).map fun (i : ℕ) => a + (i : ℚ)

/-- `np.meshgrid(r1, r2, r3)` with the default `indexing='xy'`: the three
returned arrays have shape `(len r2, len r1, len r3)`, with
`X[i,j,k] = r1[j]`, `Y[i,j,k] = r2[i]`, `Z[i,j,k] = r3[k]`. -/
def meshgrid3 (r1 r2 r3 : List ℚ) : Array3 ℚ × Array3 ℚ × Array3 ℚ :=
  (⟨(r2.length, r1.length, r3.length), fun _ j _ => r1.getD j 0⟩,
   ⟨(r2.length, r1.length, r3.length), fun i _ _ => r2.getD i 0⟩,
   ⟨(r2.length, r1.length, r3.length), fun _ _ k => r3.getD k 0⟩)

/-- `half_shape[k] = shape[k] / 2` (floating-point division). -/
def halfShape (d : ℕ) : ℚ := (d : ℚ) / 2

/-- `np.arange(-n, n)` for `n = d / 2`: the coordinate range of an axis of
length `d`. -/
def rangeList (d : ℕ) : List ℚ := npArange (-halfShape d) (halfShape d)

/-- `x_mesh, y_mesh, z_mesh = np.asarray(np.meshgrid(*ranges))`. -/
def meshes (s : ℕ × ℕ × ℕ) : Array3 ℚ × Array3 ℚ × Array3 ℚ :=
  meshgrid3 (rangeList s.1) (rangeList s.2.1) (rangeList s.2.2)

/-- `mesh /= mesh.max()`: `none` when the mesh is empty (numpy raises);
otherwise every entry is divided by the global maximum (division by a zero
maximum makes entries non-finite, not an exception). -/
def normMesh (A : Array3 ℚ) : Option (Array3 WVal) :=
  match npMax A with
  | none => none
  | some M => some ⟨A.shape, fun i j k => qDivW (A.entry i j k) M⟩

/-- Python `range(a, b)`. -/
def pyRange (a b : ℤ) : List ℤ :=
  (List.range (b - a).toNat).map fun (i : ℕ) => a + (i : ℤ)

/-- Python `range(b)`. -/
def pyRange1 (b : ℤ) : List ℤ := (List.range b.toNat).map fun (i : ℕ) => (i : ℤ)

/-- The exponent triples `(x_order, y_order, z_order)` in the order
enumerated by the nested loops of `get_params` (lines 81-85):
`for x_order in range(0, order + 1): for y_order in
range(0, order + 1 - x_order): for z_order in
range(0, order + 1 - (x_order + y_order))`. -/
def triples_sampler (order : ℤ) : List (ℤ × ℤ × ℤ) :=
  (pyRange 0 (order + 1)).flatMap fun x =>
    (pyRange 0 (order + 1 - x)).flatMap fun y =>
      (pyRange 0 (order + 1 - (x + y))).map fun z => (x, y, z)

/-- The exponent triples in the order enumerated by the nested loops of
`generate_bias_field` (lines 112-114): `for x_order in range(order + 1):
for y_order in range(order + 1 - x_order): for z_order in
range(order + 1 - (x_order + y_order))`. -/
def triples_synth (order : ℤ) : List (ℤ × ℤ × ℤ) :=
  (pyRange1 (order + 1)).flatMap fun x =>
    (pyRange1 (order + 1 - x)).flatMap fun y =>
      (pyRange1 (order + 1 - (x + y))).map fun z => (x, y, z)

/-- `RandomBiasField.get_params(order, coefficients_range, probability)`.
`draw i` is the value produced by the i-th `torch.FloatTensor(1).uniform_`
call and `r` the value of `torch.rand(1)` (so `0 ≤ r < 1`).  The function
performs no validation: the loops simply run over `triples_sampler order`,
and `do_augmentation = torch.rand(1) < probability` is a strict
comparison. -/
def get_params (order : ℤ) (draw : ℕ → ℚ) (r p : ℚ) : Bool × List ℚ :=
  (decide (r < p), (triples_sampler order).enum.map fun it => draw it.1)

/-- One `new_map = random_coefficient * x_mesh ** x_order * y_mesh **
y_order * z_mesh ** z_order` term (the multiplications associate to the
left, and a scalar times an array has the array's shape).  The exponents
produced by the loops are non-negative, hence the `Int.toNat`. -/
def termMap (c : ℚ) (xm ym zm : Array3 WVal) (t : ℤ × ℤ × ℤ) : Array3 WVal :=
  ⟨xm.shape, fun i j k =>
    wMul (wMul (wMul (some c) (wPow (xm.entry i j k) t.1.toNat))
      (wPow (ym.entry i j k) t.2.1.toNat)) (wPow (zm.entry i j k) t.2.2.toNat)⟩

/-- `np.transpose(new_map, (1, 0, 2))`. -/
def transpose102 {α : Type} (A : Array3 α) : Array3 α :=
  ⟨(A.shape.2.1, A.shape.1, A.shape.2.2), fun i j k => A.entry j i k⟩

/-- `bias_field = np.zeros(shape)`. -/
def zeros3 (s : ℕ × ℕ × ℕ) : Array3 WVal := ⟨s, fun _ _ _ => some 0⟩

/-- `bias_field += term`: numpy in-place addition, defined here only for
equal shapes (the only case this program exercises; a genuine shape
mismatch would raise, modelled as `none`). -/
def npAdd (A B : Array3 WVal) : Option (Array3 WVal) :=
  if A.shape = B.shape then
    some ⟨A.shape, fun i j k => wAdd (A.entry i j k) (B.entry i j k)⟩
  else none

/-- The accumulation loop of `generate_bias_field`, up to (but not
including) the final `np.exp`.  The guard `(triples_synth order).length ≤
coefficients.length` models the `IndexError` raised by `coefficients[i]`
when the vector is too short: the source fails exactly when the loop index
reaches `len(coefficients)`, i.e. iff `len(coefficients)` is smaller than
the number of enumerated triples; surplus coefficients are never read. -/
def bias_accum (s : ℕ × ℕ × ℕ) (order : ℤ) (coefficients : List ℚ) :
    Option (Array3 WVal) :=
  match normMesh (meshes s).1, normMesh (meshes s).2.1, normMesh (meshes s).2.2 with
  | some xm, some ym, some zm =>
    if (triples_synth order).length ≤ coefficients.length then
      (triples_synth order).enum.foldl
        (fun acc it => acc.bind fun A =>
          npAdd A (transpose102 (termMap (coefficients.getD it.1 0) xm ym zm it.2)))
        (some (zeros3 s))
    else none
  | _, _, _ => none

/-- `RandomBiasField.generate_bias_field(data, order, coefficients)`:
the accumulated polynomial followed by `np.exp(...).astype(np.float32)`
(the cast is the identity in the model; `exp` of a non-finite accumulator
entry stays non-finite or degenerate, modelled as `none`). -/
noncomputable def generate_bias_field (s : ℕ × ℕ × ℕ) (order : ℤ)
    (coefficients : List ℚ) : Option (Array3 (Option ℝ)) :=
  (bias_accum s order coefficients).map fun A =>
    ⟨A.shape, fun i j k => (A.entry i j k).map (fun (q : ℚ) => Real.exp (q : ℝ))⟩

/-! ### Basic facts about `listMax` -/

lemma le_foldl_max (xs : List ℚ) (a : ℚ) : a ≤ xs.foldl max a := by
  induction xs generalizing a with
  | nil => simp
  | cons x xs ih => exact le_trans (le_max_left a x) (ih (max a x))

lemma foldl_max_le_of_mem {xs : List ℚ} {b : ℚ} (a : ℚ) (h : b ∈ xs) :
    b ≤ xs.foldl max a := by
  induction xs generalizing a with
  | nil => cases h
  | cons x xs ih =>
    rcases List.mem_cons.1 h with rfl | h
    · exact le_trans (le_max_right a b) (le_foldl_max xs (max a b))
    · exact ih (max a x) h

lemma foldl_max_mem (xs : List ℚ) (a : ℚ) :
    xs.foldl max a = a ∨ xs.foldl max a ∈ xs := by
  induction xs generalizing a with
  | nil => exact Or.inl rfl
  | cons x xs ih =>
    rcases ih (max a x) with h | h
    · rcases max_choice a x with h1 | h1
      · exact Or.inl (by rw [List.foldl_cons, h, h1])
      · exact Or.inr (by rw [List.foldl_cons, h, h1]; exact List.mem_cons_self x xs)
    · exact Or.inr (List.mem_cons_of_mem x h)

lemma listMax_spec {l : List ℚ} (h : l ≠ []) :
    ∃ M, listMax l = some M ∧ M ∈ l ∧ ∀ b ∈ l, b ≤ M := by
  match l with
  | [] => exact absurd rfl h
  | x :: xs =>
    refine ⟨xs.foldl max x, rfl, ?_, ?_⟩
    · rcases foldl_max_mem xs x with h1 | h1
      · rw [h1]; exact List.mem_cons_self x xs
      · exact List.mem_cons_of_mem x h1
    · intro b hb
      rcases List.mem_cons.1 hb with rfl | hb
      · exact le_foldl_max xs b
      · exact foldl_max_le_of_mem x hb

lemma listMax_eq_some {l : List ℚ} {M : ℚ} (hM : M ∈ l) (hle : ∀ b ∈ l, b ≤ M) :
    listMax l = some M := by
  obtain ⟨N, h1, h2, h3⟩ := listMax_spec (List.ne_nil_of_mem hM)
  have : N = M := le_antisymm (hle N h2) (h3 M hM)
  rw [h1, this]

/-! ### The coordinate ranges and their maxima -/

lemma rangeList_eq (d : ℕ) :
    rangeList d = (List.range d).map (fun (i : ℕ) => -((d : ℚ) / 2) + (i : ℚ)) := by
  simp only [rangeList, npArange, halfShape]
  have h : (d : ℚ) / 2 - -((d : ℚ) / 2) = ((d : ℕ) : ℚ) := by ring
  rw [h, Int.ceil_natCast, Int.toNat_natCast]

lemma length_rangeList (d : ℕ) : (rangeList d).length = d := by
  rw [rangeList_eq, List.length_map, List.length_range]

lemma getD_rangeList {d j : ℕ} (hj : j < d) :
    (rangeList d).getD j 0 = (j : ℚ) - (d : ℚ) / 2 := by
  rw [rangeList_eq, List.getD_eq_getElem?_getD, List.getElem?_map,
    List.getElem?_range hj]
  simp only [Option.map_some', Option.getD_some]
  ring

lemma mem_flatten {A : Array3 ℚ} {b : ℚ} :
    b ∈ flatten A ↔ ∃ i j k, i < A.shape.1 ∧ j < A.shape.2.1 ∧ k < A.shape.2.2 ∧
      b = A.entry i j k := by
  simp only [flatten, List.mem_flatMap, List.mem_map, List.mem_range]
  constructor
  · rintro ⟨i, hi, j, hj, k, hk, rfl⟩
    exact ⟨i, j, k, hi, hj, hk, rfl⟩
  · rintro ⟨i, j, k, hi, hj, hk, rfl⟩
    exact ⟨i, hi, j, hj, k, hk, rfl⟩

lemma npMax_mesh1 {d1 d2 d3 : ℕ} (h1 : 1 ≤ d1) (h2 : 1 ≤ d2) (h3 : 1 ≤ d3) :
    npMax (meshes (d1, d2, d3)).1 = some ((d1 : ℚ) / 2 - 1) := by
  have hsh : (meshes (d1, d2, d3)).1.shape = (d2, d1, d3) := by
    simp [meshes, meshgrid3, length_rangeList]
  have hcast : ((d1 - 1 : ℕ) : ℚ) = (d1 : ℚ) - 1 := by
    push_cast [h1]; ring
  apply listMax_eq_some
  · rw [mem_flatten]
    refine ⟨0, d1 - 1, 0, ?_, ?_, ?_, ?_⟩
    · rw [hsh]; exact h2
    · rw [hsh]; exact Nat.sub_lt h1 Nat.one_pos
    · rw [hsh]; exact h3
    · show _ = (rangeList d1).getD (d1 - 1) 0
      rw [getD_rangeList (by omega), hcast]
      ring
  · intro b hb
    rw [mem_flatten] at hb
    obtain ⟨i, j, k, hi, hj, hk, rfl⟩ := hb
    rw [hsh] at hj
    show (rangeList d1).getD j 0 ≤ _
    rw [getD_rangeList hj]
    have : (j : ℚ) + 1 ≤ (d1 : ℚ) := by exact_mod_cast hj
    linarith

lemma npMax_mesh2 {d1 d2 d3 : ℕ} (h1 : 1 ≤ d1) (h2 : 1 ≤ d2) (h3 : 1 ≤ d3) :
    npMax (meshes (d1, d2, d3)).2.1 = some ((d2 : ℚ) / 2 - 1) := by
  have hsh : (meshes (d1, d2, d3)).2.1.shape = (d2, d1, d3) := by
    simp [meshes, meshgrid3, length_rangeList]
  have hcast : ((d2 - 1 : ℕ) : ℚ) = (d2 : ℚ) - 1 := by
    push_cast [h2]; ring
  apply listMax_eq_some
  · rw [mem_flatten]
    refine ⟨d2 - 1, 0, 0, ?_, ?_, ?_, ?_⟩
    · rw [hsh]; exact Nat.sub_lt h2 Nat.one_pos
    · rw [hsh]; exact h1
    · rw [hsh]; exact h3
    · show _ = (rangeList d2).getD (d2 - 1) 0
      rw [getD_rangeList (by omega), hcast]
      ring
  · intro b hb
    rw [mem_flatten] at hb
    obtain ⟨i, j, k, hi, hj, hk, rfl⟩ := hb
    rw [hsh] at hi
    show (rangeList d2).getD i 0 ≤ _
    rw [getD_rangeList hi]
    have : (i : ℚ) + 1 ≤ (d2 : ℚ) := by exact_mod_cast hi
    linarith

lemma npMax_mesh3 {d1 d2 d3 : ℕ} (h1 : 1 ≤ d1) (h2 : 1 ≤ d2) (h3 : 1 ≤ d3) :
    npMax (meshes (d1, d2, d3)).2.2 = some ((d3 : ℚ) / 2 - 1) := by
  have hsh : (meshes (d1, d2, d3)).2.2.shape = (d2, d1, d3) := by
    simp [meshes, meshgrid3, length_rangeList]
  have hcast : ((d3 - 1 : ℕ) : ℚ) = (d3 : ℚ) - 1 := by
    push_cast [h3]; ring
  apply listMax_eq_some
  · rw [mem_flatten]
    refine ⟨0, 0, d3 - 1, ?_, ?_, ?_, ?_⟩
    · rw [hsh]; exact h2
    · rw [hsh]; exact h1
    · rw [hsh]; exact Nat.sub_lt h3 Nat.one_pos
    · show _ = (rangeList d3).getD (d3 - 1) 0
      rw [getD_rangeList (by omega), hcast]
      ring
  · intro b hb
    rw [mem_flatten] at hb
    obtain ⟨i, j, k, hi, hj, hk, rfl⟩ := hb
    rw [hsh] at hk
    show (rangeList d3).getD k 0 ≤ _
    rw [getD_rangeList hk]
    have : (k : ℚ) + 1 ≤ (d3 : ℚ) := by exact_mod_cast hk
    linarith

lemma normMesh_mesh1 {d1 d2 d3 : ℕ} (h1 : 1 ≤ d1) (h2 : 1 ≤ d2) (h3 : 1 ≤ d3) :
    normMesh (meshes (d1, d2, d3)).1 =
      some ⟨(d2, d1, d3), fun _ j _ => qDivW ((rangeList d1).getD j 0) ((d1 : ℚ) / 2 - 1)⟩ := by
  simp only [normMesh, npMax_mesh1 h1 h2 h3]
  simp [meshes, meshgrid3, length_rangeList]

lemma normMesh_mesh2 {d1 d2 d3 : ℕ} (h1 : 1 ≤ d1) (h2 : 1 ≤ d2) (h3 : 1 ≤ d3) :
    normMesh (meshes (d1, d2, d3)).2.1 =
      some ⟨(d2, d1, d3), fun i _ _ => qDivW ((rangeList d2).getD i 0) ((d2 : ℚ) / 2 - 1)⟩ := by
  simp only [normMesh, npMax_mesh2 h1 h2 h3]
  simp [meshes, meshgrid3, length_rangeList]

lemma normMesh_mesh3 {d1 d2 d3 : ℕ} (h1 : 1 ≤ d1) (h2 : 1 ≤ d2) (h3 : 1 ≤ d3) :
    normMesh (meshes (d1, d2, d3)).2.2 =
      some ⟨(d2, d1, d3), fun _ _ k => qDivW ((rangeList d3).getD k 0) ((d3 : ℚ) / 2 - 1)⟩ := by
  simp only [normMesh, npMax_mesh3 h1 h2 h3]
  simp [meshes, meshgrid3, length_rangeList]

/-! ### Reduction of the accumulation loop to a pointwise fold -/

lemma npAdd_of_shape_eq {A B : Array3 WVal} (h : A.shape = B.shape) :
    npAdd A B = some ⟨A.shape, fun i j k => wAdd (A.entry i j k) (B.entry i j k)⟩ := by
  unfold npAdd
  rw [if_pos h]

lemma accum_foldl (d1 d2 d3 : ℕ) (coeffs : List ℚ) (xm ym zm : Array3 WVal)
    (hx : xm.shape = (d2, d1, d3))
    (ts : List (ℕ × (ℤ × ℤ × ℤ))) (g : ℕ → ℕ → ℕ → WVal) :
    ts.foldl
      (fun acc it => acc.bind fun A =>
        npAdd A (transpose102 (termMap (coeffs.getD it.1 0) xm ym zm it.2)))
      (some ⟨(d1, d2, d3), g⟩)
    = some ⟨(d1, d2, d3), fun i j k =>
        ts.foldl (fun v it => wAdd v
          (wMul (wMul (wMul (some (coeffs.getD it.1 0))
            (wPow (xm.entry j i k) it.2.1.toNat))
            (wPow (ym.entry j i k) it.2.2.1.toNat))
            (wPow (zm.entry j i k) it.2.2.2.toNat)))
          (g i j k)⟩ := by
  induction ts generalizing g with
  | nil => rfl
  | cons t ts ih =>
    have hstep :
        (Option.bind (some (⟨(d1, d2, d3), g⟩ : Array3 WVal)) fun A =>
          npAdd A (transpose102 (termMap (coeffs.getD t.1 0) xm ym zm t.2)))
        = some ⟨(d1, d2, d3), fun i j k => wAdd (g i j k)
            (wMul (wMul (wMul (some (coeffs.getD t.1 0))
              (wPow (xm.entry j i k) t.2.1.toNat))
              (wPow (ym.entry j i k) t.2.2.1.toNat))
              (wPow (zm.entry j i k) t.2.2.2.toNat))⟩ := by
      show npAdd _ _ = _
      have hsh : (⟨(d1, d2, d3), g⟩ : Array3 WVal).shape
          = (transpose102 (termMap (coeffs.getD t.1 0) xm ym zm t.2)).shape := by
        show (d1, d2, d3) = (xm.shape.2.1, xm.shape.1, xm.shape.2.2)
        rw [hx]
      rw [npAdd_of_shape_eq hsh]
      rfl
    rw [List.foldl_cons, hstep, ih]
    rfl

lemma bias_accum_eq {d1 d2 d3 : ℕ} (h1 : 1 ≤ d1) (h2 : 1 ≤ d2) (h3 : 1 ≤ d3)
    (order : ℤ) (coeffs : List ℚ)
    (hlen : (triples_synth order).length ≤ coeffs.length) :
    bias_accum (d1, d2, d3) order coeffs = some ⟨(d1, d2, d3), fun i j k =>
      (triples_synth order).enum.foldl (fun v it => wAdd v
        (wMul (wMul (wMul (some (coeffs.getD it.1 0))
          (wPow (qDivW ((rangeList d1).getD i 0) ((d1 : ℚ) / 2 - 1)) it.2.1.toNat))
          (wPow (qDivW ((rangeList d2).getD j 0) ((d2 : ℚ) / 2 - 1)) it.2.2.1.toNat))
          (wPow (qDivW ((rangeList d3).getD k 0) ((d3 : ℚ) / 2 - 1)) it.2.2.2.toNat)))
        (some 0)⟩ := by
  simp only [bias_accum, normMesh_mesh1 h1 h2 h3, normMesh_mesh2 h1 h2 h3,
    normMesh_mesh3 h1 h2 h3]
  rw [if_pos hlen]
  exact accum_foldl d1 d2 d3 coeffs _ _ _ rfl _ _

lemma bias_accum_short {d1 d2 d3 : ℕ} (h1 : 1 ≤ d1) (h2 : 1 ≤ d2) (h3 : 1 ≤ d3)
    (order : ℤ) (coeffs : List ℚ)
    (hlt : coeffs.length < (triples_synth order).length) :
    bias_accum (d1, d2, d3) order coeffs = none := by
  simp only [bias_accum, normMesh_mesh1 h1 h2 h3, normMesh_mesh2 h1 h2 h3,
    normMesh_mesh3 h1 h2 h3]
  rw [if_neg (not_le.2 hlt)]

/-! ### Pointwise evaluation of the fold -/

lemma qDivW_of_ne {v M : ℚ} (h : M ≠ 0) : qDivW v M = some (v / M) := if_neg h

lemma qDivW_of_eq {v M : ℚ} (h : M = 0) : qDivW v M = none := by
  simp [qDivW, h]

lemma entry_mk {α : Type} (s : ℕ × ℕ × ℕ) (f : ℕ → ℕ → ℕ → α) (i j k : ℕ) :
    (Array3.mk s f).entry i j k = f i j k := rfl

lemma wAdd_none_right (x : WVal) : wAdd x none = none := by cases x <;> rfl

lemma wMul_none_right (x : WVal) : wMul x none = none := by cases x <;> rfl

lemma wMul_none_left (x : WVal) : wMul none x = none := by cases x <;> rfl

lemma wPow_one (x : WVal) : wPow x 1 = wMul x (some 1) := rfl

lemma wPow_some (x : ℚ) (n : ℕ) : wPow (some x) n = some (x ^ n) := by
  induction n with
  | zero => rfl
  | succ n ih => rw [wPow, ih]; show some _ = _; rw [← pow_succ']

lemma foldl_entries_some (ts : List (ℕ × (ℤ × ℤ × ℤ))) (coeffs : List ℚ)
    (a b c v0 : ℚ) :
    ts.foldl (fun v it => wAdd v
      (wMul (wMul (wMul (some (coeffs.getD it.1 0)) (wPow (some a) it.2.1.toNat))
        (wPow (some b) it.2.2.1.toNat)) (wPow (some c) it.2.2.2.toNat)))
      (some v0)
    = some (ts.foldl (fun v it =>
        v + coeffs.getD it.1 0 * a ^ it.2.1.toNat * b ^ it.2.2.1.toNat *
          c ^ it.2.2.2.toNat) v0) := by
  induction ts generalizing v0 with
  | nil => rfl
  | cons t ts ih =>
    rw [List.foldl_cons, List.foldl_cons, wPow_some, wPow_some, wPow_some]
    show List.foldl _ (wAdd (some v0) (some _)) ts = _
    rw [show wAdd (some v0) (some (coeffs.getD t.1 0 * a ^ t.2.1.toNat *
      b ^ t.2.2.1.toNat * c ^ t.2.2.2.toNat)) = some (v0 + coeffs.getD t.1 0 *
      a ^ t.2.1.toNat * b ^ t.2.2.1.toNat * c ^ t.2.2.2.toNat) from rfl]
    exact ih _

lemma getD_zero_of_all_zero {coeffs : List ℚ} (h : ∀ c ∈ coeffs, c = 0) (n : ℕ) :
    coeffs.getD n 0 = 0 := by
  rcases lt_or_le n coeffs.length with hn | hn
  · rw [coeffs.getD_eq_getElem 0 hn]
    exact h _ (coeffs.getElem_mem hn)
  · exact List.getD_eq_default _ _ hn

lemma foldl_all_zero (ts : List (ℕ × (ℤ × ℤ × ℤ))) {coeffs : List ℚ}
    (h : ∀ c ∈ coeffs, c = 0) (a b c : ℚ) :
    ts.foldl (fun v it =>
      v + coeffs.getD it.1 0 * a ^ it.2.1.toNat * b ^ it.2.2.1.toNat *
        c ^ it.2.2.2.toNat) 0 = 0 := by
  have step : ∀ (v0 : ℚ) (it : ℕ × (ℤ × ℤ × ℤ)),
      v0 + coeffs.getD it.1 0 * a ^ it.2.1.toNat * b ^ it.2.2.1.toNat *
        c ^ it.2.2.2.toNat = v0 := by
    intro v0 it
    rw [getD_zero_of_all_zero h]
    ring
  induction ts with
  | nil => rfl
  | cons t ts ih => rw [List.foldl_cons, step]; exact ih

/-! ### Counting the exponent triples -/

lemma pyRange_zero (b : ℤ) : pyRange 0 b = pyRange1 b := by
  simp [pyRange, pyRange1]

lemma triples_eq (order : ℤ) : triples_sampler order = triples_synth order := by
  simp only [triples_sampler, triples_synth, pyRange_zero]

lemma list_sum_range (F : ℕ → ℕ) (m : ℕ) :
    ((List.range m).map F).sum = ∑ i ∈ Finset.range m, F i := by
  induction m with
  | zero => rfl
  | succ m ih =>
    rw [List.range_succ, List.map_append, List.sum_append, Finset.sum_range_succ, ih]
    rfl

lemma sum2 (m : ℕ) : (∑ y ∈ Finset.range m, (m - y)) * 2 = m * (m + 1) := by
  have h1 : ∑ y ∈ Finset.range m, (m - y) = ∑ y ∈ Finset.range m, (y + 1) := by
    rw [← Finset.sum_range_reflect (fun i => i + 1) m]
    apply Finset.sum_congr rfl
    intro y hy
    have := Finset.mem_range.1 hy
    omega
  have h2 : ∑ y ∈ Finset.range (m + 1), y = ∑ y ∈ Finset.range m, (y + 1) := by
    rw [Finset.sum_range_succ' (fun k => k) m]
    omega
  rw [h1, ← h2, Finset.sum_range_id_mul_two]
  simp [Nat.mul_comm]

lemma sum3 (n : ℕ) :
    (∑ x ∈ Finset.range (n + 1), ∑ y ∈ Finset.range (x + 1), (x + 1 - y)) * 6
      = (n + 1) * (n + 2) * (n + 3) := by
  induction n with
  | zero => decide
  | succ m ih =>
    rw [Finset.sum_range_succ, Nat.add_mul, ih]
    have h2 := sum2 (m + 2)
    have h3 : (∑ y ∈ Finset.range (m + 1 + 1), (m + 1 + 1 - y)) * 6
        = ((m + 2) * (m + 3)) * 3 := by
      calc (∑ y ∈ Finset.range (m + 2), (m + 2 - y)) * 6
          = ((∑ y ∈ Finset.range (m + 2), (m + 2 - y)) * 2) * 3 := by ring
        _ = ((m + 2) * (m + 3)) * 3 := by rw [h2]
    rw [h3]
    ring

lemma sum3_reflect (n : ℕ) :
    (∑ x ∈ Finset.range (n + 1), ∑ y ∈ Finset.range (n + 1 - x), (n + 1 - x - y)) * 6
      = (n + 1) * (n + 2) * (n + 3) := by
  have hrefl : ∑ x ∈ Finset.range (n + 1), ∑ y ∈ Finset.range (n + 1 - x), (n + 1 - x - y)
      = ∑ x ∈ Finset.range (n + 1), ∑ y ∈ Finset.range (x + 1), (x + 1 - y) := by
    rw [← Finset.sum_range_reflect
      (fun x => ∑ y ∈ Finset.range (x + 1), (x + 1 - y)) (n + 1)]
    apply Finset.sum_congr rfl
    intro x hx
    have hx' := Finset.mem_range.1 hx
    have h : n + 1 - 1 - x + 1 = n + 1 - x := by omega
    rw [h]
  rw [hrefl]
  exact sum3 n

lemma length_triples_synth_sum (n : ℕ) :
    (triples_synth (n : ℤ)).length
      = ∑ x ∈ Finset.range (n + 1), ∑ y ∈ Finset.range (n + 1 - x), (n + 1 - x - y) := by
  rw [triples_synth, List.length_flatMap]
  have hn : ((n : ℤ) + 1).toNat = n + 1 := by omega
  rw [pyRange1, hn, List.map_map, list_sum_range]
  apply Finset.sum_congr rfl
  intro x hx
  have hx' := Finset.mem_range.1 hx
  show ((pyRange1 ((n : ℤ) + 1 - (x : ℤ))).flatMap _).length = _
  rw [List.length_flatMap]
  have hnx : ((n : ℤ) + 1 - (x : ℤ)).toNat = n + 1 - x := by omega
  rw [pyRange1, hnx, List.map_map, list_sum_range]
  apply Finset.sum_congr rfl
  intro y hy
  have hy' := Finset.mem_range.1 hy
  show ((pyRange1 ((n : ℤ) + 1 - ((x : ℤ) + (y : ℤ)))).map _).length = _
  rw [List.length_map, pyRange1, List.length_map, List.length_range]
  omega

lemma length_triples_synth (n : ℕ) :
    (triples_synth (n : ℤ)).length * 6 = (n + 1) * (n + 2) * (n + 3) := by
  rw [length_triples_synth_sum]
  exact sum3_reflect n

/-! ### Normalized range values -/

lemma halfM_ne {d : ℕ} (h1 : 1 ≤ d) (hn : d ≠ 2) : ((d : ℚ) / 2 - 1) ≠ 0 := by
  intro h
  have h2 : (d : ℚ) = 2 := by linarith
  have : d = 2 := by exact_mod_cast h2
  exact hn this

lemma norm_val_le {d j : ℕ} (h1 : 1 ≤ d) (hn : d ≠ 2) (hj : j < d) :
    ∃ q : ℚ, qDivW ((rangeList d).getD j 0) ((d : ℚ) / 2 - 1) = some q ∧ q ≤ 1 := by
  rw [getD_rangeList hj, qDivW_of_ne (halfM_ne h1 hn)]
  refine ⟨_, rfl, ?_⟩
  rcases (by omega : d = 1 ∨ 3 ≤ d) with rfl | h3
  · have hj0 : j = 0 := by omega
    subst hj0
    norm_num
  · have hM : (0 : ℚ) < (d : ℚ) / 2 - 1 := by
      have : (3 : ℚ) ≤ (d : ℚ) := by exact_mod_cast h3
      linarith
    rw [div_le_one hM]
    have : (j : ℚ) + 1 ≤ (d : ℚ) := by exact_mod_cast hj
    linarith

lemma norm_val_attain {d : ℕ} (h1 : 1 ≤ d) (hn : d ≠ 2) :
    qDivW ((rangeList d).getD (d - 1) 0) ((d : ℚ) / 2 - 1) = some 1 := by
  rw [getD_rangeList (Nat.sub_lt h1 Nat.one_pos), qDivW_of_ne (halfM_ne h1 hn)]
  congr 1
  have hd : ((d - 1 : ℕ) : ℚ) = (d : ℚ) - 1 := by push_cast [h1]; ring
  rw [hd]
  have h : (d : ℚ) - 1 - (d : ℚ) / 2 = (d : ℚ) / 2 - 1 := by ring
  rw [h, div_self (halfM_ne h1 hn)]

/-- Helper: if the accumulator entry at a given index is non-finite, the
generated field exists and is non-finite at that index. -/
lemma generate_entry_none {s : ℕ × ℕ × ℕ} {order : ℤ} {coeffs : List ℚ}
    {i j k : ℕ}
    (h : (bias_accum s order coeffs).map (fun A => A.entry i j k) = some none) :
    ∃ A, generate_bias_field s order coeffs = some A ∧ A.entry i j k = none := by
  obtain ⟨B, hB, hBe⟩ := Option.map_eq_some'.1 h
  refine ⟨⟨B.shape, fun a b c =>
    (B.entry a b c).map (fun (q : ℚ) => Real.exp (q : ℝ))⟩, ?_, ?_⟩
  · show Option.map _ _ = _
    rw [hB]
    rfl
  · show (B.entry i j k).map _ = none
    rw [hBe]
    rfl

/-! ### The claims -/

/-- C1: for every order ≥ 0 the coefficient vector returned by `get_params`
has exactly (order+1)(order+2)(order+3)/6 entries. -/
theorem claim1_coeff_count (order : ℤ) (hord : 0 ≤ order) (draw : ℕ → ℚ)
    (r p : ℚ) :
    ((get_params order draw r p).2.length : ℤ)
      = (order + 1) * (order + 2) * (order + 3) / 6 := by
  obtain ⟨n, rfl⟩ := Int.eq_ofNat_of_zero_le hord
  have hlen : (get_params (n : ℤ) draw r p).2.length
      = (triples_synth (n : ℤ)).length := by
    simp [get_params, List.enum_length, triples_eq]
  have hcast : ((triples_synth (n : ℤ)).length : ℤ) * 6
      = ((n : ℤ) + 1) * ((n : ℤ) + 2) * ((n : ℤ) + 3) := by
    exact_mod_cast length_triples_synth n
  rw [hlen, ← hcast, Int.mul_ediv_cancel _ (by norm_num)]

/-- C1 witness: order = 3 yields 20 coefficients. -/
theorem claim1_coeff_count_witness :
    ((get_params 3 (fun _ => 0) 0 1).2.length : ℤ) = 20 := by
  have h := claim1_coeff_count 3 (by norm_num) (fun _ => 0) 0 1
  rw [h]
  decide

/-- C2: for every valid 3-element spatial shape, order ≥ 0 and coefficient
vector of matching length, `generate_bias_field` returns an array of
exactly that spatial shape. -/
theorem claim2_shape {d1 d2 d3 : ℕ} (order : ℤ) (coeffs : List ℚ)
    (h1 : 1 ≤ d1) (h2 : 1 ≤ d2) (h3 : 1 ≤ d3) (hord : 0 ≤ order)
    (hlen : coeffs.length = (triples_synth order).length) :
    ∃ A, generate_bias_field (d1, d2, d3) order coeffs = some A ∧
      A.shape = (d1, d2, d3) := by
  simp only [generate_bias_field,
    bias_accum_eq h1 h2 h3 order coeffs (le_of_eq hlen.symm), Option.map_some']
  exact ⟨_, rfl, rfl⟩

/-- C2 witness: shape (3,4,5), order 0, one coefficient. -/
theorem claim2_shape_witness :
    ∃ A, generate_bias_field (3, 4, 5) 0 [0] = some A ∧ A.shape = (3, 4, 5) :=
  @claim2_shape 3 4 5 0 [0] (by norm_num) (by norm_num) (by norm_num)
    (by norm_num) (by decide)

/-- C3 counterexample: at the valid input shape (2,1,1), order 1,
coefficients [0,0,0,0], the returned field's element (0,0,0) is non-finite
(`nan` in the source: the x-mesh maximum is 0 and the division by zero
propagates), hence not strictly positive — refuting the claim that every
element of the field is > 0 for every valid input. -/
theorem claim3_positivity_cex :
    ∃ A, generate_bias_field (2, 1, 1) 1 [0, 0, 0, 0] = some A ∧
      ¬ (∃ x : ℝ, A.entry 0 0 0 = some x ∧ 0 < x) := by
  have hacc : (bias_accum (2, 1, 1) 1 [0, 0, 0, 0]).map (fun A => A.entry 0 0 0)
      = some none := by
    rw [bias_accum_eq (by norm_num) (by norm_num) (by norm_num) 1 [0, 0, 0, 0]
      (by decide)]
    rw [Option.map_some']
    simp only [entry_mk]
    rw [show (triples_synth 1).enum
      = [(0, (0, 0, 0)), (1, (0, 0, 1)), (2, (0, 1, 0)), (3, (1, 0, 0))]
      from by decide]
    simp only [List.foldl_cons, List.foldl_nil, Nat.cast_ofNat, Int.toNat_one]
    simp only [qDivW_of_eq (show ((2 : ℚ) / 2 - 1) = 0 by norm_num)]
    simp only [wPow_one, wMul_none_left, wMul_none_right, wAdd_none_right]
  obtain ⟨A, hA, he⟩ := generate_entry_none hacc
  refine ⟨A, hA, ?_⟩
  rintro ⟨x, hx, -⟩
  rw [he] at hx
  cases hx

/-- C3 (amended): for every valid input whose spatial shape has no axis of
length 2 (so no mesh maximum is zero), every element of the returned field
is finite and strictly positive. -/
theorem claim3_positivity_amended {d1 d2 d3 : ℕ} (order : ℤ) (coeffs : List ℚ)
    (h1 : 1 ≤ d1) (h2 : 1 ≤ d2) (h3 : 1 ≤ d3)
    (hn1 : d1 ≠ 2) (hn2 : d2 ≠ 2) (hn3 : d3 ≠ 2) (hord : 0 ≤ order)
    (hlen : coeffs.length = (triples_synth order).length) :
    ∃ A, generate_bias_field (d1, d2, d3) order coeffs = some A ∧
      ∀ i j k, i < d1 → j < d2 → k < d3 →
        ∃ x : ℝ, A.entry i j k = some x ∧ 0 < x := by
  simp only [generate_bias_field,
    bias_accum_eq h1 h2 h3 order coeffs (le_of_eq hlen.symm), Option.map_some']
  refine ⟨_, rfl, ?_⟩
  intro i j k hi hj hk
  show ∃ x : ℝ, Option.map _ _ = some x ∧ 0 < x
  simp only [qDivW_of_ne (halfM_ne h1 hn1), qDivW_of_ne (halfM_ne h2 hn2),
    qDivW_of_ne (halfM_ne h3 hn3), foldl_entries_some, Option.map_some']
  exact ⟨_, rfl, Real.exp_pos _⟩

/-- C3 witness for the amended statement: shape (3,1,1), order 1,
coefficients [1,1,1,1]. -/
theorem claim3_positivity_witness :
    ∃ A, generate_bias_field (3, 1, 1) 1 [1, 1, 1, 1] = some A ∧
      ∀ i j k, i < 3 → j < 1 → k < 1 →
        ∃ x : ℝ, A.entry i j k = some x ∧ 0 < x :=
  @claim3_positivity_amended 3 1 1 1 [1, 1, 1, 1] (by norm_num) (by norm_num)
    (by norm_num) (by norm_num) (by norm_num) (by norm_num) (by norm_num)
    (by decide)

/-- C4: the exponent-triple enumeration of `get_params` and the one of
`generate_bias_field` are identical, element by element and in order, for
every order. -/
theorem claim4_enum_order (order : ℤ) :
    triples_sampler order = triples_synth order :=
  triples_eq order

/-- C5 counterexample: with all coefficients 0 on shape (2,2,2), order 1
(a valid shape/order with matching vector length), the field element at
(0,0,0) is non-finite, not 1 — refuting the claim for every valid shape and
order. -/
theorem claim5_zero_cex :
    ∃ A, generate_bias_field (2, 2, 2) 1 [0, 0, 0, 0] = some A ∧
      A.entry 0 0 0 ≠ some (1 : ℝ) := by
  have hacc : (bias_accum (2, 2, 2) 1 [0, 0, 0, 0]).map (fun A => A.entry 0 0 0)
      = some none := by
    rw [bias_accum_eq (by norm_num) (by norm_num) (by norm_num) 1 [0, 0, 0, 0]
      (by decide)]
    rw [Option.map_some']
    simp only [entry_mk]
    rw [show (triples_synth 1).enum
      = [(0, (0, 0, 0)), (1, (0, 0, 1)), (2, (0, 1, 0)), (3, (1, 0, 0))]
      from by decide]
    simp only [List.foldl_cons, List.foldl_nil, Nat.cast_ofNat, Int.toNat_one]
    simp only [qDivW_of_eq (show ((2 : ℚ) / 2 - 1) = 0 by norm_num)]
    simp only [wPow_one, wMul_none_left, wMul_none_right, wAdd_none_right]
  obtain ⟨A, hA, he⟩ := generate_entry_none hacc
  refine ⟨A, hA, ?_⟩
  rw [he]
  intro h
  cases h

/-- C5 (amended): if every coefficient is 0 and no spatial axis has length
2, the returned field is uniformly 1; the claim's concrete case
(shape (4,4,4), order 0, coefficients [0]) satisfies these conditions. -/
theorem claim5_zero_amended {d1 d2 d3 : ℕ} (order : ℤ) (coeffs : List ℚ)
    (h1 : 1 ≤ d1) (h2 : 1 ≤ d2) (h3 : 1 ≤ d3)
    (hn1 : d1 ≠ 2) (hn2 : d2 ≠ 2) (hn3 : d3 ≠ 2) (hord : 0 ≤ order)
    (hlen : coeffs.length = (triples_synth order).length)
    (hzero : ∀ c ∈ coeffs, c = 0) :
    ∃ A, generate_bias_field (d1, d2, d3) order coeffs = some A ∧
      ∀ i j k, i < d1 → j < d2 → k < d3 → A.entry i j k = some (1 : ℝ) := by
  simp only [generate_bias_field,
    bias_accum_eq h1 h2 h3 order coeffs (le_of_eq hlen.symm), Option.map_some']
  refine ⟨_, rfl, ?_⟩
  intro i j k hi hj hk
  show Option.map _ _ = some (1 : ℝ)
  simp only [qDivW_of_ne (halfM_ne h1 hn1), qDivW_of_ne (halfM_ne h2 hn2),
    qDivW_of_ne (halfM_ne h3 hn3), foldl_entries_some, Option.map_some']
  rw [foldl_all_zero _ hzero]
  simp [Real.exp_zero]

/-- C5 witness: the claim's concrete case — shape (4,4,4), order 0,
coefficients [0] give a field that is 1 everywhere. -/
theorem claim5_zero_witness :
    ∃ A, generate_bias_field (4, 4, 4) 0 [0] = some A ∧
      ∀ i j k, i < 4 → j < 4 → k < 4 → A.entry i j k = some (1 : ℝ) :=
  @claim5_zero_amended 4 4 4 0 [0] (by norm_num) (by norm_num) (by norm_num)
    (by norm_num) (by norm_num) (by norm_num) (by norm_num) (by decide)
    (by simp)

/-- C6 counterexample: a coefficient vector that is too long (length 2 when
order 0 expects 1) does NOT make the call fail — a field is returned and
the surplus coefficient is silently ignored — refuting the claim that every
length mismatch fails. -/
theorem claim6_mismatch_cex :
    (∃ A, generate_bias_field (1, 1, 1) 0 [0, 0] = some A) ∧
    [0, 0].length ≠ (triples_synth 0).length := by
  constructor
  · have hB := @bias_accum_eq 1 1 1 (by norm_num) (by norm_num) (by norm_num)
      0 [0, 0] (by decide)
    show ∃ A, (bias_accum (1, 1, 1) 0 [0, 0]).map _ = some A
    rw [hB]
    exact ⟨_, rfl⟩
  · decide

/-- C6 (amended): a too-short coefficient vector makes
`generate_bias_field` fail with an index error and no field is returned; a
too-long vector does not fail — the call returns a field and ignores the
surplus entries. -/
theorem claim6_mismatch_amended {d1 d2 d3 : ℕ} (order : ℤ) (coeffs : List ℚ)
    (h1 : 1 ≤ d1) (h2 : 1 ≤ d2) (h3 : 1 ≤ d3) :
    (coeffs.length < (triples_synth order).length →
      generate_bias_field (d1, d2, d3) order coeffs = none) ∧
    ((triples_synth order).length ≤ coeffs.length →
      ∃ A, generate_bias_field (d1, d2, d3) order coeffs = some A) := by
  constructor
  · intro hlt
    simp only [generate_bias_field,
      bias_accum_short h1 h2 h3 order coeffs hlt, Option.map_none']
  · intro hle
    simp only [generate_bias_field,
      bias_accum_eq h1 h2 h3 order coeffs hle, Option.map_some']
    exact ⟨_, rfl⟩

/-- C6 witness: an empty coefficient vector with order 0 (expects 1) makes
the call fail. -/
theorem claim6_mismatch_witness :
    generate_bias_field (1, 1, 1) 0 [] = none :=
  (@claim6_mismatch_amended 1 1 1 0 [] (by norm_num) (by norm_num)
    (by norm_num)).1 (by decide)

/-- C7 counterexample: `get_params` with order = -1 raises no error and
produces a result — the apply-decision together with an empty coefficient
vector; the loops never run, so not even the coefficient range (where a
low > high pair could in principle disturb the underlying random
primitive) is consulted — refuting the claim that invalid inputs fail with
InvalidParameter. -/
theorem claim7_validation_cex :
    get_params (-1) (fun _ => 0) 0 1 = (true, []) := by
  decide

/-- C7 (amended): `get_params` performs no validation: for every order < 0
it returns normally, with an empty coefficient vector, for any draw stream
and probability. -/
theorem claim7_validation_amended (order : ℤ) (hord : order < 0)
    (draw : ℕ → ℚ) (r p : ℚ) :
    (get_params order draw r p).2 = [] := by
  have h : triples_sampler order = [] := by
    simp only [triples_sampler, pyRange]
    have h0 : (order + 1 - 0).toNat = 0 := by omega
    rw [h0]
    rfl
  simp [get_params, h]

/-- C7 witness for the amended statement: order = -1. -/
theorem claim7_validation_witness :
    (get_params (-1) (fun _ => (0 : ℚ)) 0 1).2 = [] :=
  claim7_validation_amended (-1) (by norm_num) (fun _ => 0) 0 1

/-- C8 counterexample: on the valid shape (4,4,4) the normalized x-mesh
value at index (0,0,0) is -2, whose absolute value exceeds 1 — refuting the
claim that after normalization every mesh value v satisfies |v| ≤ 1. -/
theorem claim8_norm_cex :
    (normMesh (meshes (4, 4, 4)).1).map (fun m => m.entry 0 0 0)
      = some (some (-2)) ∧ ¬ (|(-2 : ℚ)| ≤ 1) := by
  constructor
  · rw [normMesh_mesh1 (by norm_num) (by norm_num) (by norm_num)]
    rw [Option.map_some']
    simp only [entry_mk]
    rw [getD_rangeList (by norm_num : (0 : ℕ) < 4)]
    simp only [Nat.cast_ofNat, Nat.cast_zero]
    rw [qDivW_of_ne (show ((4 : ℚ) / 2 - 1) ≠ 0 by norm_num)]
    norm_num
  · rw [abs_of_nonpos (by norm_num : (-2 : ℚ) ≤ 0)]
    norm_num

/-- C8 (amended): after normalization the maximum SIGNED value of each mesh
is exactly 1 (every value is ≤ 1 and 1 is attained), for every axis of
length ≠ 2; the maximum absolute value can exceed 1. -/
theorem claim8_norm_amended {d1 d2 d3 : ℕ} (h1 : 1 ≤ d1) (h2 : 1 ≤ d2)
    (h3 : 1 ≤ d3) (hn1 : d1 ≠ 2) (hn2 : d2 ≠ 2) (hn3 : d3 ≠ 2) :
    (∃ m, normMesh (meshes (d1, d2, d3)).1 = some m ∧
      (∀ i j k, j < d1 → ∃ q : ℚ, m.entry i j k = some q ∧ q ≤ 1) ∧
      m.entry 0 (d1 - 1) 0 = some 1) ∧
    (∃ m, normMesh (meshes (d1, d2, d3)).2.1 = some m ∧
      (∀ i j k, i < d2 → ∃ q : ℚ, m.entry i j k = some q ∧ q ≤ 1) ∧
      m.entry (d2 - 1) 0 0 = some 1) ∧
    (∃ m, normMesh (meshes (d1, d2, d3)).2.2 = some m ∧
      (∀ i j k, k < d3 → ∃ q : ℚ, m.entry i j k = some q ∧ q ≤ 1) ∧
      m.entry 0 0 (d3 - 1) = some 1) :=
  ⟨⟨_, normMesh_mesh1 h1 h2 h3,
      fun _ j _ hj => norm_val_le h1 hn1 hj, norm_val_attain h1 hn1⟩,
   ⟨_, normMesh_mesh2 h1 h2 h3,
      fun i _ _ hi => norm_val_le h2 hn2 hi, norm_val_attain h2 hn2⟩,
   ⟨_, normMesh_mesh3 h1 h2 h3,
      fun _ _ k hk => norm_val_le h3 hn3 hk, norm_val_attain h3 hn3⟩⟩

/-- C8 witness for the amended statement: shape (4,4,4). -/
theorem claim8_norm_witness :
    (∃ m, normMesh (meshes (4, 4, 4)).1 = some m ∧
      (∀ i j k, j < 4 → ∃ q : ℚ, m.entry i j k = some q ∧ q ≤ 1) ∧
      m.entry 0 3 0 = some 1) ∧
    (∃ m, normMesh (meshes (4, 4, 4)).2.1 = some m ∧
      (∀ i j k, i < 4 → ∃ q : ℚ, m.entry i j k = some q ∧ q ≤ 1) ∧
      m.entry 3 0 0 = some 1) ∧
    (∃ m, normMesh (meshes (4, 4, 4)).2.2 = some m ∧
      (∀ i j k, k < 4 → ∃ q : ℚ, m.entry i j k = some q ∧ q ≤ 1) ∧
      m.entry 0 0 3 = some 1) :=
  @claim8_norm_amended 4 4 4 (by norm_num) (by norm_num) (by norm_num)
    (by norm_num) (by norm_num) (by norm_num)

/-- C9: the apply-decision of `get_params` is the strict comparison
r < probability on the uniform draw r ∈ [0,1): probability 0 always gives
false and probability 1 always gives true. -/
theorem claim9_bernoulli (order : ℤ) (draw : ℕ → ℚ) (r : ℚ)
    (h0 : 0 ≤ r) (h1 : r < 1) :
    (get_params order draw r 0).1 = false ∧
    (get_params order draw r 1).1 = true ∧
    ∀ p : ℚ, (get_params order draw r p).1 = decide (r < p) := by
  refine ⟨?_, ?_, fun p => rfl⟩
  · exact decide_eq_false (not_lt.2 h0)
  · exact decide_eq_true h1

/-- C9 witness: r = 1/2. -/
theorem claim9_bernoulli_witness :
    (get_params 3 (fun _ => 0) (1 / 2) 0).1 = false ∧
    (get_params 3 (fun _ => 0) (1 / 2) 1).1 = true := by
  have h := claim9_bernoulli 3 (fun _ => 0) (1 / 2) (by norm_num) (by norm_num)
  exact ⟨h.1, h.2.1⟩

/-- C10: a shape with an axis of length 2 is accepted by
`generate_bias_field`; its coordinate range is [-1, 0], so the mesh maximum
is 0, the normalization divides by zero, and the returned field contains a
non-finite value instead of strictly positive reals. -/
theorem claim10_div_zero :
    rangeList 2 = [-1, 0] ∧
    npMax (meshes (2, 1, 1)).1 = some 0 ∧
    qDivW (-1) 0 = none ∧
    ∃ A, generate_bias_field (2, 1, 1) 1 [0, 0, 0, 1] = some A ∧
      A.entry 0 0 0 = none := by
  refine ⟨?_, ?_, qDivW_of_eq rfl, ?_⟩
  · rw [rangeList_eq]
    norm_num [List.range_succ]
  · rw [npMax_mesh1 (by norm_num) (by norm_num) (by norm_num)]
    norm_num
  · refine generate_entry_none ?_
    rw [bias_accum_eq (by norm_num) (by norm_num) (by norm_num) 1 [0, 0, 0, 1]
      (by decide)]
    rw [Option.map_some']
    simp only [entry_mk]
    rw [show (triples_synth 1).enum
      = [(0, (0, 0, 0)), (1, (0, 0, 1)), (2, (0, 1, 0)), (3, (1, 0, 0))]
      from by decide]
    simp only [List.foldl_cons, List.foldl_nil, Nat.cast_ofNat, Int.toNat_one]
    simp only [qDivW_of_eq (show ((2 : ℚ) / 2 - 1) = 0 by norm_num)]
    simp only [wPow_one, wMul_none_left, wMul_none_right, wAdd_none_right]

end TorchioBias
